import Mathlib

/-!
Verification of the native library in src/native-lib/sample.c.

Embedding choices:
* int32 values are Lean integers; the C integer addition in avg is embedded
  with an explicit two of complement wrap into the int32 range (wrap32),
  matching the signed overflow behaviour the specification sanctions.
* binary64 values are embedded as rationals together with an explicit
  round-to-nearest-ties-to-even rounding function (binary64Round) that snaps a
  rational to the binary64 grid of its binade, with the subnormal cutoff at
  exponent -1022.  Overflow to infinity is not modelled: every value produced
  by this library is bounded by 2^32, far below the binary64 overflow
  threshold.  The C expression (a + b) * 0.5 is embedded as a rounded
  int-to-double conversion followed by a rounded multiplication; the literal
  0.5 denotes the exact binary64 value 1/2.
-/

/-- Round a rational to the nearest integer, ties to even. -/
def roundNearestEven (x : ℚ) : ℤ :=
  let f := Int.floor x
  if x - f < 1/2 then f
  else if 1/2 < x - f then f + 1
  else if f % 2 = 0 then f else f + 1

/-- Round a rational to the binary64 grid of its binade: the grid step is
2 ^ (e - 52) where e is the binade exponent, clamped below at -1022
(subnormal range).  Round-to-nearest, ties to even. -/
def binary64Round (q : ℚ) : ℚ :=
  if q = 0 then 0
  else
    let e : ℤ := max (Int.log 2 |q|) (-1022)
    (roundNearestEven (q * 2 ^ (52 - e)) : ℚ) * 2 ^ (e - 52)

/-- The int32 range predicate: -2^31 <= x < 2^31. -/
def inInt32Range (x : ℤ) : Prop := -(2 ^ 31) ≤ x ∧ x < 2 ^ 31

instance (x : ℤ) : Decidable (inInt32Range x) := by
  unfold inInt32Range; infer_instance

/-- Two of complement wrap of an integer into the int32 range, the embedding
of signed 32-bit overflow in the C sum a + b. -/
def wrap32 (x : ℤ) : ℤ := (x + 2 ^ 31) % 2 ^ 32 - 2 ^ 31

/-- Embedding of avg from src/native-lib/sample.c: the int32 sum (with wrap on
overflow), converted to binary64, multiplied by the binary64 literal 0.5 with
binary64 rounding. -/
def avg (a b : ℤ) : ℚ :=
  binary64Round (binary64Round ((wrap32 (a + b) : ℤ) : ℚ) * (1/2))

/-- The build targets distinguished by the platform macros in the source. -/
inductive Arch where
  | bits32 : Arch
  | bits64 : Arch

/-- Byte width of intptr_t on each build target. -/
def sizeof_intptr : Arch → ℕ
  | Arch.bits32 => 4
  | Arch.bits64 => 8

/-- Embedding of ptrSize from src/native-lib/sample.c: returns
sizeof(intptr_t) on the build target. -/
def ptrSize (t : Arch) : ℤ := (sizeof_intptr t : ℤ)

/-- Embedding of the JNI-conventioned export from src/native-lib/sample.c:
two opaque handle parameters, then delegation to avg. -/
def Java_deltix_NativeUtilsSample_00024Imports_avg
    (E O : Type) (env : E) (obj : O) (a b : ℤ) : ℚ :=
  avg a b

/-- Embedding of DllMain from src/native-lib/sample.c: opaque instance and
reserved handles, a uint32 reason code, and the constant BOOL result 1. -/
def DllMain (H1 H2 : Type) (instance0 : H1) (reason : ℕ) (reserved : H2) : ℤ :=
  1

/-- The mutable state of the library: the source declares no global variable,
so the state carries no fields. -/
structure LibState

/-- A call to avg as a state transformer on the library state. -/
def avgCall (s : LibState) (a b : ℤ) : ℚ × LibState := (avg a b, s)

/-- A call to ptrSize as a state transformer on the library state. -/
def ptrSizeCall (s : LibState) (t : Arch) : ℤ × LibState := (ptrSize t, s)

/-- A call to the JNI-conventioned export as a state transformer on the
library state. -/
def jniAvgCall (E O : Type) (s : LibState) (env : E) (obj : O) (a b : ℤ) :
    ℚ × LibState :=
  (Java_deltix_NativeUtilsSample_00024Imports_avg E O env obj a b, s)

/-- Modelled from the spec sentence of C2, for comparison with avg: the two
inputs converted to binary64, combined by binary64 floating-point addition,
then multiplied by 0.5 with binary64 rounding. -/
def avgFpAdd (a b : ℤ) : ℚ :=
  binary64Round
    (binary64Round (binary64Round ((a : ℚ)) + binary64Round ((b : ℚ))) * (1/2))

-- Helper lemmas on the rounding model.

theorem roundNearestEven_intCast (n : ℤ) : roundNearestEven (n : ℚ) = n := by
  unfold roundNearestEven
  rw [Int.floor_intCast]
  norm_num

theorem wrap32_bounds (x : ℤ) : -(2 ^ 31) ≤ wrap32 x ∧ wrap32 x < 2 ^ 31 := by
  unfold wrap32; omega

theorem wrap32_eq_self {x : ℤ} (h : inInt32Range x) : wrap32 x = x := by
  unfold inInt32Range at h; unfold wrap32; omega

theorem wrap32_modeq (x : ℤ) : Int.ModEq (2 ^ 32) (wrap32 x) x := by
  unfold Int.ModEq wrap32; omega

/-- A nonzero rational of the form k * 2 ^ s with at most 53 significant bits
and above the subnormal cutoff is a fixed point of binary64 rounding. -/
theorem binary64Round_fix (k s : ℤ) (hk : k ≠ 0) (h53 : |k| < 2 ^ 53)
    (hs : -1022 ≤ s) : binary64Round ((k : ℚ) * 2 ^ s) = (k : ℚ) * 2 ^ s := by
  have h2 : (0 : ℚ) < 2 ^ s := zpow_pos (by norm_num) s
  have hq : ((k : ℚ) * 2 ^ s) ≠ 0 := by
    refine mul_ne_zero ?_ (ne_of_gt h2)
    exact_mod_cast hk
  have habs : |(k : ℚ) * 2 ^ s| = |(k : ℚ)| * 2 ^ s := by
    rw [abs_mul, abs_of_pos h2]
  have habs_pos : (0 : ℚ) < |(k : ℚ) * 2 ^ s| := abs_pos.mpr hq
  have hkabs : (1 : ℚ) ≤ |(k : ℚ)| := by
    have : (1 : ℤ) ≤ |k| := Int.one_le_abs hk
    calc (1 : ℚ) ≤ (|k| : ℤ) := by exact_mod_cast this
    _ = |(k : ℚ)| := by push_cast; ring_nf
  set L : ℤ := Int.log 2 |(k : ℚ) * 2 ^ s| with hL
  have hLlow : s ≤ L := by
    rw [hL]
    rw [← Int.zpow_le_iff_le_log (by norm_num) habs_pos]
    rw [habs]
    calc ((2 : ℕ) : ℚ) ^ s = 2 ^ s := by norm_num
    _ = 1 * 2 ^ s := by ring
    _ ≤ |(k : ℚ)| * 2 ^ s := by
        exact mul_le_mul_of_nonneg_right hkabs (le_of_lt h2)
  have hLhigh : L < 53 + s := by
    rw [hL]
    rw [← Int.lt_zpow_iff_log_lt (by norm_num) habs_pos]
    rw [habs]
    have hk53 : |(k : ℚ)| < 2 ^ (53 : ℤ) := by
      have : (|k| : ℚ) < ((2 : ℤ) ^ (53 : ℕ) : ℤ) := by exact_mod_cast h53
      calc |(k : ℚ)| = (|k| : ℚ) := by ring_nf
      _ < ((2 : ℤ) ^ (53 : ℕ) : ℤ) := this
      _ = 2 ^ (53 : ℤ) := by push_cast; norm_num
    calc |(k : ℚ)| * 2 ^ s < 2 ^ (53 : ℤ) * 2 ^ s := by
          exact mul_lt_mul_of_pos_right hk53 h2
    _ = 2 ^ (53 + s) := by rw [← zpow_add₀ (by norm_num : (2:ℚ) ≠ 0)]
    _ = ((2 : ℕ) : ℚ) ^ (53 + s) := by norm_num
  have hmax : max L (-1022) = L := max_eq_left (le_trans hs hLlow)
  unfold binary64Round
  rw [if_neg hq]
  simp only [← hL, hmax]
  have hexp : (0 : ℤ) ≤ s + (52 - L) := by omega
  have hgrid : (k : ℚ) * 2 ^ s * 2 ^ (52 - L)
      = ((k * 2 ^ (s + (52 - L)).toNat : ℤ) : ℚ) := by
    rw [mul_assoc, ← zpow_add₀ (by norm_num : (2:ℚ) ≠ 0)]
    push_cast
    rw [← zpow_natCast (2 : ℚ) (s + (52 - L)).toNat,
      Int.toNat_of_nonneg hexp]
  rw [hgrid, roundNearestEven_intCast]
  push_cast
  rw [← zpow_natCast (2 : ℚ) (s + (52 - L)).toNat, Int.toNat_of_nonneg hexp]
  rw [mul_assoc, ← zpow_add₀ (by norm_num : (2:ℚ) ≠ 0)]
  have hsimp : s + (52 - L) + (L - 52) = s := by ring
  rw [hsimp]

theorem binary64Round_zero : binary64Round 0 = 0 := by
  unfold binary64Round; simp

/-- Integers of magnitude below 2 ^ 53 convert to binary64 exactly. -/
theorem binary64Round_intCast (k : ℤ) (h53 : |k| < 2 ^ 53) :
    binary64Round (k : ℚ) = k := by
  by_cases hk : k = 0
  · subst hk; simpa using binary64Round_zero
  · have := binary64Round_fix k 0 hk h53 (by norm_num)
    simpa using this

/-- Half-integers with numerator of magnitude below 2 ^ 53 are exact
binary64 values. -/
theorem binary64Round_half (k : ℤ) (h53 : |k| < 2 ^ 53) :
    binary64Round ((k : ℚ) * (1/2)) = (k : ℚ) * (1/2) := by
  by_cases hk : k = 0
  · subst hk; simpa using binary64Round_zero
  · have := binary64Round_fix k (-1) hk h53 (by norm_num)
    have hhalf : ((2 : ℚ) ^ (-1 : ℤ)) = 1/2 := by norm_num
    rw [hhalf] at this
    exact this

/-- The binary64 computation in avg is exact: the result is the exact
rational product of the wrapped integer sum with one half. -/
theorem avg_eq (a b : ℤ) : avg a b = ((wrap32 (a + b) : ℤ) : ℚ) * (1/2) := by
  unfold avg
  have hb := wrap32_bounds (a + b)
  have h53 : |wrap32 (a + b)| < 2 ^ 53 := by
    rw [abs_lt]; constructor <;> [nlinarith [hb.1]; nlinarith [hb.2]]
  rw [binary64Round_intCast _ h53, binary64Round_half _ h53]

/-- The spec-modelled floating-point-addition variant is also exact for int32
inputs (the true sum of two int32 values always fits in binary64). -/
theorem avgFpAdd_eq (a b : ℤ) (ha : inInt32Range a) (hb : inInt32Range b) :
    avgFpAdd a b = ((a + b : ℤ) : ℚ) * (1/2) := by
  unfold avgFpAdd
  unfold inInt32Range at ha hb
  have ha53 : |a| < 2 ^ 53 := by rw [abs_lt]; omega
  have hb53 : |b| < 2 ^ 53 := by rw [abs_lt]; omega
  have hs53 : |a + b| < 2 ^ 53 := by rw [abs_lt]; omega
  rw [binary64Round_intCast a ha53, binary64Round_intCast b hb53]
  have hcast : ((a : ℚ) + (b : ℚ)) = ((a + b : ℤ) : ℚ) := by push_cast; ring
  rw [hcast, binary64Round_intCast _ hs53, binary64Round_half _ hs53]

-- Claim theorems.

/-- C1: for every pair of int32 inputs a and b, avg returns the wrapped
signed-integer sum a + b multiplied by 0.5, and this binary64 product is
exact: it equals the exact rational product of the wrapped sum with 0.5. -/
theorem C1_avg_int_sum_times_half (a b : ℤ)
    (ha : inInt32Range a) (hb : inInt32Range b) :
    avg a b = ((wrap32 (a + b) : ℤ) : ℚ) * (1/2) :=
  avg_eq a b

theorem C1_avg_int_sum_times_half_witness :
    inInt32Range 2 ∧ inInt32Range 4 ∧
      avg 2 4 = ((wrap32 (2 + 4) : ℤ) : ℚ) * (1/2) :=
  ⟨by decide, by decide,
    C1_avg_int_sum_times_half 2 4 (by decide) (by decide)⟩

/-- C2 counterexample: the inputs to avg are not combined by floating-point
addition.  At a = b = 2147483647 the integer sum wraps to -2 and avg returns
-1, while the floating-point-addition reading gives 2147483647. -/
theorem C2_counterexample_fp_addition :
    avg 2147483647 2147483647 ≠ avgFpAdd 2147483647 2147483647 := by
  have hw : wrap32 (2147483647 + 2147483647) = -2 := by
    unfold wrap32; decide
  have hl : avg 2147483647 2147483647 = -1 := by
    rw [avg_eq, hw]; norm_num
  have hr : avgFpAdd 2147483647 2147483647 = 2147483647 := by
    rw [avgFpAdd_eq 2147483647 2147483647 (by decide) (by decide)]
    norm_num
  rw [hl, hr]; norm_num

/-- C2 amended: for int32 inputs whose int32 sum does not overflow, avg
coincides with the binary64 floating-point-addition formulation: the double
sum of the converted inputs, multiplied by 0.5. -/
theorem C2_avg_eq_fp_addition_when_no_overflow (a b : ℤ)
    (ha : inInt32Range a) (hb : inInt32Range b)
    (hs : inInt32Range (a + b)) :
    avg a b = avgFpAdd a b := by
  rw [avg_eq, wrap32_eq_self hs, avgFpAdd_eq a b ha hb]

theorem C2_avg_eq_fp_addition_when_no_overflow_witness :
    inInt32Range 2 ∧ inInt32Range 3 ∧ inInt32Range (2 + 3) ∧
      avg 2 3 = avgFpAdd 2 3 :=
  ⟨by decide, by decide, by decide,
    C2_avg_eq_fp_addition_when_no_overflow 2 3 (by decide) (by decide)
      (by decide)⟩

/-- C3: when the int32 sum does not overflow, avg returns the exact rational
value (a + b) / 2 with no rounding error: the sum converts to binary64
exactly and the multiplication by 0.5 is exact. -/
theorem C3_avg_exact_no_overflow (a b : ℤ)
    (ha : inInt32Range a) (hb : inInt32Range b)
    (hs : inInt32Range (a + b)) :
    avg a b = ((a + b : ℤ) : ℚ) / 2 ∧
      binary64Round ((a + b : ℤ) : ℚ) = ((a + b : ℤ) : ℚ) ∧
      binary64Round (((a + b : ℤ) : ℚ) * (1/2))
        = ((a + b : ℤ) : ℚ) * (1/2) := by
  unfold inInt32Range at hs
  have h53 : |a + b| < 2 ^ 53 := by rw [abs_lt]; omega
  refine ⟨?_, binary64Round_intCast _ h53, binary64Round_half _ h53⟩
  rw [avg_eq, wrap32_eq_self ⟨hs.1, hs.2⟩]
  ring

theorem C3_avg_exact_no_overflow_witness :
    inInt32Range 1 ∧ inInt32Range 2 ∧ inInt32Range (1 + 2) ∧
      (avg 1 2 = ((1 + 2 : ℤ) : ℚ) / 2 ∧
        binary64Round ((1 + 2 : ℤ) : ℚ) = ((1 + 2 : ℤ) : ℚ) ∧
        binary64Round (((1 + 2 : ℤ) : ℚ) * (1/2))
          = ((1 + 2 : ℤ) : ℚ) * (1/2)) :=
  ⟨by decide, by decide, by decide,
    C3_avg_exact_no_overflow 1 2 (by decide) (by decide) (by decide)⟩

/-- C4: the JNI-conventioned export equals avg on identical integer inputs,
for every pair of values of the opaque handle parameters, and its result is
independent of those handles. -/
theorem C4_jni_export_delegates (E O : Type) (env env2 : E) (obj obj2 : O)
    (a b : ℤ) :
    Java_deltix_NativeUtilsSample_00024Imports_avg E O env obj a b
        = avg a b ∧
      Java_deltix_NativeUtilsSample_00024Imports_avg E O env obj a b
        = Java_deltix_NativeUtilsSample_00024Imports_avg E O env2 obj2 a b :=
  ⟨rfl, rfl⟩

/-- C5: ptrSize returns sizeof(intptr_t) on the build target, 8 on a
64-bit target and 4 on a 32-bit target, and the result is always 4 or 8. -/
theorem C5_ptrSize_is_pointer_width (t : Arch) :
    ptrSize t = (sizeof_intptr t : ℤ) ∧
      ptrSize Arch.bits64 = 8 ∧ ptrSize Arch.bits32 = 4 ∧
      (ptrSize t = 4 ∨ ptrSize t = 8) := by
  refine ⟨rfl, rfl, rfl, ?_⟩
  cases t
  · exact Or.inl rfl
  · exact Or.inr rfl

/-- C6: on int32 inputs whose sum overflows the int32 range, avg still
returns a value: the sum wrapped modulo 2 ^ 32 back into the int32 range,
multiplied by 0.5; there is no error path. -/
theorem C6_avg_overflow_wraps (a b : ℤ)
    (ha : inInt32Range a) (hb : inInt32Range b)
    (hs : ¬ inInt32Range (a + b)) :
    avg a b = ((wrap32 (a + b) : ℤ) : ℚ) * (1/2) ∧
      Int.ModEq (2 ^ 32) (wrap32 (a + b)) (a + b) ∧
      inInt32Range (wrap32 (a + b)) := by
  refine ⟨avg_eq a b, wrap32_modeq (a + b), ?_⟩
  have := wrap32_bounds (a + b)
  exact ⟨this.1, this.2⟩

theorem C6_avg_overflow_wraps_witness :
    inInt32Range 2147483647 ∧ inInt32Range 1 ∧
      ¬ inInt32Range (2147483647 + 1) ∧
      (avg 2147483647 1 = ((wrap32 (2147483647 + 1) : ℤ) : ℚ) * (1/2) ∧
        Int.ModEq (2 ^ 32) (wrap32 (2147483647 + 1)) (2147483647 + 1) ∧
        inInt32Range (wrap32 (2147483647 + 1))) :=
  ⟨by decide, by decide, by decide,
    C6_avg_overflow_wraps 2147483647 1 (by decide) (by decide) (by decide)⟩

/-- C7: avg 2 4 returns exactly 3, avg (-1) 1 returns exactly 0, and
avg 1 2 returns exactly 3/2. -/
theorem C7_avg_examples :
    avg 2 4 = 3 ∧ avg (-1) 1 = 0 ∧ avg 1 2 = 3/2 := by
  have h1 : wrap32 (2 + 4) = 6 := wrap32_eq_self (by decide)
  have h2 : wrap32 (-1 + 1) = 0 := wrap32_eq_self (by decide)
  have h3 : wrap32 (1 + 2) = 3 := wrap32_eq_self (by decide)
  refine ⟨?_, ?_, ?_⟩ <;> rw [avg_eq]
  · rw [h1]; norm_num
  · rw [h2]; norm_num
  · rw [h3]; norm_num

/-- C8: DllMain returns the BOOL value 1 (true) for every combination of its
instance handle, reason code and reserved argument, and its result is
independent of all of them. -/
theorem C8_dllmain_always_succeeds (H1 H2 : Type)
    (inst inst2 : H1) (reason reason2 : ℕ) (res res2 : H2) :
    DllMain H1 H2 inst reason res = 1 ∧
      DllMain H1 H2 inst reason res = DllMain H1 H2 inst2 reason2 res2 :=
  ⟨rfl, rfl⟩

/-- C9: every export is deterministic and side-effect-free: invoked as state
transformers on the library state (which has no fields, as the source has no
global variables), each call leaves the state unchanged and its result does
not depend on the state, so results depend only on the arguments. -/
theorem C9_exports_pure (s1 s2 : LibState) (a b : ℤ) (t : Arch)
    (E O : Type) (env : E) (obj : O) :
    ((avgCall s1 a b).1 = (avgCall s2 a b).1 ∧ (avgCall s1 a b).2 = s1) ∧
      ((ptrSizeCall s1 t).1 = (ptrSizeCall s2 t).1 ∧
        (ptrSizeCall s1 t).2 = s1) ∧
      ((jniAvgCall E O s1 env obj a b).1
          = (jniAvgCall E O s2 env obj a b).1 ∧
        (jniAvgCall E O s1 env obj a b).2 = s1) :=
  ⟨⟨rfl, rfl⟩, ⟨rfl, rfl⟩, ⟨rfl, rfl⟩⟩

/-- C10: avg is commutative: avg a b = avg b a for all integer inputs, in
particular for all int32 inputs. -/
theorem C10_avg_comm (a b : ℤ) : avg a b = avg b a := by
  unfold avg
  rw [Int.add_comm a b]
